import Mathlib

/-!
A verification development for the `AWSRequestSV4` JavaScript class (AWS
Signature Version 4 request canonicalization and signing).

Modelling conventions (shallow embedding):
* JavaScript strings are modelled as `List Char` (`Str`).  JavaScript's
  default `Array.prototype.sort()` compares strings lexicographically; we use
  the lexicographic linear order on `List Char`.
* Every call to `new Date()` in the source is modelled by an explicit
  `JSDate` argument at the corresponding call site; a `JSDate` carries both
  the local-time and the UTC components of one instant, because the source
  mixes `getFullYear`/`getMonth`/`getMinutes`/`getSeconds` (local time) with
  `getUTCDate`/`getUTCHours` (UTC).
* The external cryptographic primitives `CryptoJS.SHA256` and
  `CryptoJS.HmacSHA256` are not part of this repository; they are carried as
  abstract function parameters `sha : List Nat → List Nat` and
  `hmac : List Nat → List Nat → List Nat` over byte sequences (here `hmac`
  takes the key first and the message second, while `CryptoJS.HmacSHA256`
  takes the message first; each call below is labelled).  CryptoJS's
  `.toString()` rendering of a digest (lowercase hexadecimal) is modelled
  concretely by `hexLower`, and its UTF-8 conversion of string inputs by
  `utf8Str`.
* A JavaScript object used as a string-keyed map is modelled as an
  association list in property-insertion order (`objInsert` reproduces the
  assignment semantics: updating an existing key keeps its position).
-/

namespace AWSRequestSV4

/-- JavaScript strings as lists of characters. -/
abbrev Str := List Char

/-- Embed a Lean string literal as a `Str`. -/
def jsStr (s : String) : Str := s.data

/-- The whitespace characters stripped by `String.prototype.trim()`
(restricted to the ASCII whitespace actually occurring in this domain). -/
def isWS (c : Char) : Bool :=
  c = ' ' || c = '\t' || c = '\n' || c = '\r'

/-- `String.prototype.trim()`: strip leading and trailing whitespace. -/
def trimStr (s : Str) : Str :=
  ((s.dropWhile isWS).reverse.dropWhile isWS).reverse

/-- `String.prototype.toLowerCase()` (ASCII range). -/
def toLowerStr (s : Str) : Str := s.map Char.toLower

/-- `String.prototype.indexOf(pat)` starting from position `i`:
first index at which `pat` occurs as a substring, or `none` (JS `-1`). -/
def idxOfFrom (pat : Str) : Str → Nat → Option Nat
  | [], i => if pat = [] then some i else none
  | c :: rest, i =>
    if pat.isPrefixOf (c :: rest) then some i else idxOfFrom pat rest (i + 1)

/-- `String.prototype.indexOf(pat)`. -/
def idxOf (pat s : Str) : Option Nat := idxOfFrom pat s 0

/-- The characters `encodeURI` leaves unescaped: ASCII letters, digits, the
mark characters `- _ . ! ~ * ' ( )` and the reserved characters
`; / ? : @ & = + $ , #` (listed here by character code). -/
def uriKeep (c : Char) : Bool :=
  c.isAlpha || c.isDigit ||
    [45, 95, 46, 33, 126, 42, 39, 40, 41,
     59, 47, 63, 58, 64, 38, 61, 43, 36, 44, 35].contains c.toNat

/-- UTF-8 byte sequence of one character (as used by `encodeURI` and by
CryptoJS's UTF-8 string parsing). -/
def utf8Bytes (c : Char) : List Nat :=
  let n := c.toNat
  if n < 128 then [n]
  else if n < 2048 then [192 + n / 64, 128 + n % 64]
  else if n < 65536 then [224 + n / 4096, 128 + n / 64 % 64, 128 + n % 64]
  else [240 + n / 262144, 128 + n / 4096 % 64, 128 + n / 64 % 64, 128 + n % 64]

/-- UTF-8 encoding of a whole string, as a byte sequence. -/
def utf8Str (s : Str) : List Nat := s.flatMap utf8Bytes

/-- Uppercase hexadecimal digit, as produced by `encodeURI` escapes. -/
def hexDigitU (n : Nat) : Char :=
  Char.ofNat (if n < 10 then 48 + n else 55 + n)

/-- Lowercase hexadecimal digit, as produced by CryptoJS `.toString()`. -/
def hexDigitL (n : Nat) : Char :=
  Char.ofNat (if n < 10 then 48 + n else 87 + n)

/-- Percent-escape of one byte, `%XX` with uppercase hex. -/
def pctByte (b : Nat) : Str :=
  ['%', hexDigitU (b / 16), hexDigitU (b % 16)]

/-- JavaScript's global `encodeURI`: keep the unescaped set, percent-encode
every other character's UTF-8 bytes. -/
def encodeURI (s : Str) : Str :=
  s.flatMap fun c => if uriKeep c then [c] else (utf8Bytes c).flatMap pctByte

/-- Lowercase-hex rendering of a byte sequence (CryptoJS `.toString()` uses
the hex encoder, which produces lowercase digits). -/
def hexLower (bs : List Nat) : Str :=
  bs.flatMap fun b => [hexDigitL (b / 16), hexDigitL (b % 16)]

/-- `getHost(url)`: the substring between the first `"//"` and the next
`"/"` (or the end of the string). -/
def getHost (url : Str) : Str :=
  match idxOf (jsStr "//") url with
  | some b =>
    let u := url.drop (b + 2)
    match idxOf (jsStr "/") u with
    | some e => u.take e
    | none => u
  | none => url

/-- `getCanonicalURI(url)`: strip the scheme and host, keep from the first
`/` after the host up to (excluding) the first `?`, then lower-case, trim and
`encodeURI` the result.  When the post-`//` remainder has no `/`, the source
leaves that remainder unchanged (the commented-out block that would force a
trailing slash is not active in this revision). -/
def getCanonicalURI (url : Str) : Str :=
  let u1 :=
    match idxOf (jsStr "//") url with
    | some b =>
      let u := url.drop (b + 2)
      match idxOf (jsStr "/") u with
      | some b2 =>
        let u2 := u.drop b2
        match idxOf (jsStr "?") u2 with
        | some e => u2.take e
        | none => u2
      | none => u
    | none => url
  encodeURI (trimStr (toLowerStr u1))

/-- The `params` argument of the constructor: either a raw string (a URL
whose query part is extracted) or a structured parameter object, modelled as
an association list in property-insertion order. -/
inductive Params where
  | str : Str → Params
  | obj : List (Str × Str) → Params

/-- JavaScript `Array.prototype.sort()` on an array of strings: sort
lexicographically. -/
def jsSort (l : List Str) : List Str := l.insertionSort (· ≤ ·)

/-- `getCanonicalQueryString(elem)`: for a string input, take the substring
after the first `?`, trim it, and if it contains `&` split on `&`, sort the
tokens, rejoin with `&` and trim; for an object input with method GET, build
`key=value` tokens in property order, sort them, join with `&` and trim.
The final result is passed through `encodeURI` as a whole. -/
def getCanonicalQueryString (method : Str) (elem : Params) : Str :=
  let cqs : Str :=
    match elem with
    | Params.str s =>
      match idxOf (jsStr "?") s with
      | some b =>
        let c0 := trimStr (s.drop (b + 1))
        if (idxOf (jsStr "&") c0).isSome then
          trimStr ([('&' : Char)].intercalate (jsSort (c0.splitOn '&')))
        else c0
      | none => []
    | Params.obj ps =>
      if method = jsStr "GET" then
        trimStr ([('&' : Char)].intercalate (jsSort (ps.map fun p => p.1 ++ '=' :: p.2)))
      else []
  encodeURI cqs

/-- One step of `'string'.replace(twoSpaces, oneSpace)`: replace the first
occurrence of two consecutive spaces by a single space (JavaScript's
`String.prototype.replace` with a string pattern replaces only the first
occurrence). -/
def replaceDS : Str → Str
  | [] => []
  | [c] => [c]
  | a :: b :: rest =>
    if a = ' ' && b = ' ' then ' ' :: rest else a :: replaceDS (b :: rest)

/-- `s.indexOf(twoSpaces) !== -1`: does the string contain two consecutive
spaces? -/
def hasDS : Str → Bool
  | [] => false
  | [_] => false
  | a :: b :: rest => (a = ' ' && b = ' ') || hasDS (b :: rest)

/-- The `while (newVal.indexOf(twoSpaces) !== -1) newVal = newVal.replace(...)`
loop, run with explicit fuel (each iteration shortens the string by one, so
any fuel of at least the string's length runs the loop to completion). -/
def collapseWSFuel : Nat → Str → Str
  | 0, s => s
  | fuel + 1, s => if hasDS s then collapseWSFuel fuel (replaceDS s) else s

/-- The while loop of `prepareHeadersEntries`: collapse runs of spaces until
no double space remains.  `s.length` fuel always suffices, see
`collapseWS_no_ds`. -/
def collapseWS (s : Str) : Str := collapseWSFuel s.length s

/-- Header-name normalization from `prepareHeadersEntries`:
`key.trim().replace(twoSpaces, oneSpace).toLowerCase()` — note that only the
first double space is replaced for names. -/
def normHeaderKey (k : Str) : Str := toLowerStr (replaceDS (trimStr k))

/-- Header-value normalization from `prepareHeadersEntries`:
`reqHeaders[key].trim()` followed by the while-loop collapsing every double
space. -/
def normHeaderVal (v : Str) : Str := collapseWS (trimStr v)

/-- Assignment `obj[k] = v` on a JavaScript object modelled as an association
list: an existing string key keeps its position and gets the new value, a new
key is appended. -/
def objInsert (m : List (Str × Str)) (k v : Str) : List (Str × Str) :=
  if m.any fun p => p.1 = k then
    m.map fun p => if p.1 = k then (p.1, v) else p
  else m ++ [(k, v)]

/-- The `forEach` body of `prepareHeadersEntries`: normalize each entry of the
incoming header object (in property order) and assign it into the fresh
`objectHeaders` accumulator. -/
def prepareHeadersEntries (reqHeaders : List (Str × Str)) : List (Str × Str) :=
  reqHeaders.foldl (fun acc p => objInsert acc (normHeaderKey p.1) (normHeaderVal p.2)) []

/-- Result of running `prepareHeadersEntries` including its guard: `headers`
is `none` when `this.headers` was never assigned, and `consoleError` records
whether the `console.error` branch ran.  No exception is ever thrown. -/
structure HeadersPrepResult where
  headers : Option (List (Str × Str))
  consoleError : Bool
  deriving DecidableEq, Repr

/-- `prepareHeadersEntries(reqHeaders)` with its `undefined`/`null` guard
(modelled by `Option`): a present header object — even an empty one — is
normalized and stored with no error; an absent one only logs to the console
and leaves `this.headers` unset. -/
def prepareHeadersEntriesChecked : Option (List (Str × Str)) → HeadersPrepResult
  | some reqHeaders => ⟨some (prepareHeadersEntries reqHeaders), false⟩
  | none => ⟨none, true⟩

/-- `Object.keys` of the normalized header object (property order). -/
def objKeys (m : List (Str × Str)) : List Str := m.map Prod.fst

/-- `objectHeaders[key]` lookup (the default is never reached when `key` is
one of the object's keys). -/
def lookupVal (m : List (Str × Str)) (k : Str) : Str :=
  ((m.find? fun p => p.1 = k).map Prod.snd).getD []

/-- `Object.keys(this.headers).sort()`. -/
def sortKeys (m : List (Str × Str)) : List Str := jsSort (objKeys m)

/-- `getSignedHeaders()`: sorted header names joined with `;`. -/
def getSignedHeaders (m : List (Str × Str)) : Str :=
  [(';' : Char)].intercalate (sortKeys m)

/-- `getCanonicalHeadres()`: fold over the sorted header names, appending
`name:value\n` for each. -/
def getCanonicalHeadres (m : List (Str × Str)) : Str :=
  (sortKeys m).foldl (fun acc k => acc ++ k ++ ':' :: lookupVal m k ++ ['\n']) []

/-- The per-request state assembled by the constructor, as used by the
canonicalization and signing methods.  `paramsJSON` stands for the external
`JSON.encode(this.params)` serialization. -/
structure ReqState where
  secretAccessKey : Str
  accessKeyId : Str
  sessionToken : Str
  region : Str
  service : Str
  method : Str
  URI : Str
  queryString : Str
  headers : List (Str × Str)
  paramsJSON : Str

/-- `getHashedPayload()`: SHA-256 of the empty string for GET, of the JSON
serialization of the params otherwise; rendered `.toString().toLowerCase()`. -/
def getHashedPayload (sha : List Nat → List Nat) (st : ReqState) : Str :=
  if st.method = jsStr "GET" then toLowerStr (hexLower (sha (utf8Str [])))
  else toLowerStr (hexLower (sha (utf8Str st.paramsJSON)))

/-- `getCanonicalRequest()`: the six fields joined with `\n`. -/
def getCanonicalRequest (sha : List Nat → List Nat) (st : ReqState) : Str :=
  st.method ++ '\n' ::
    (st.URI ++ '\n' ::
      (st.queryString ++ '\n' ::
        (getCanonicalHeadres st.headers ++ '\n' ::
          (getSignedHeaders st.headers ++ '\n' ::
            getHashedPayload sha st))))

/-- `getCanonicalRequestDigest()`: SHA-256 of the canonical request,
`.toString().toLowerCase()`. -/
def getCanonicalRequestDigest (sha : List Nat → List Nat) (st : ReqState) : Str :=
  toLowerStr (hexLower (sha (utf8Str (getCanonicalRequest sha st))))

/-- One instant as seen by a JavaScript `Date` object: local-time and UTC
components of the same moment (they differ by the host's UTC offset). -/
structure JSDate where
  localYear : Nat
  localMonth : Nat
  localDay : Nat
  localHour : Nat
  localMinutes : Nat
  localSeconds : Nat
  utcYear : Nat
  utcMonth : Nat
  utcDay : Nat
  utcHours : Nat
  utcMinutes : Nat
  utcSeconds : Nat
  deriving DecidableEq, Repr

/-- `('0'+n)` zero padding used for every two-digit component. -/
def pad2 (n : Nat) : Str :=
  if n < 10 then '0' :: (Nat.repr n).data else (Nat.repr n).data

/-- `getDate()`: builds `'' + year + month + day` from `date.getFullYear()`
(local year), `date.getMonth()+1` (local month, here stored one-based) and
`date.getUTCDate()` (UTC day). -/
def getDate (d : JSDate) : Str :=
  (Nat.repr d.localYear).data ++ pad2 d.localMonth ++ pad2 d.utcDay

/-- `getISO8601Date()`: `this.getDate() + 'T' + hour + minutes + seconds + 'Z'`
using `date.getUTCHours()` (UTC) but `date.getMinutes()` and
`date.getSeconds()` (local).  The inner `this.getDate()` performs its own
`new Date()`, modelled by the separate argument `dInner`. -/
def getISO8601Date (d dInner : JSDate) : Str :=
  getDate dInner ++ 'T' :: (pad2 d.utcHours ++ pad2 d.localMinutes ++ pad2 d.localSeconds ++ ['Z'])

/-- The string-to-sign built inside `getSignature`:
algorithm, amz-date header value, credential scope, canonical request digest,
joined with `\n`. -/
def stringToSign (xAmzDate dateStamp region service crDigest : Str) : Str :=
  jsStr "AWS4-HMAC-SHA256" ++ '\n' ::
    (xAmzDate ++ '\n' ::
      (dateStamp ++ '/' :: (region ++ '/' :: (service ++ jsStr "/aws4_request" ++ '\n' :: crDigest))))

/-- `getSignature()`.  Each `CryptoJS.HmacSHA256(message, key)` call appears
here as `hmac key message`; `d1` is the `new Date()` of the `this.getDate()`
call in the `kDate` line, `d2` the one in the credential-scope line of the
string-to-sign. -/
def getSignature (hmac : List Nat → List Nat → List Nat) (sha : List Nat → List Nat)
    (st : ReqState) (d1 d2 : JSDate) : Str :=
  let kDate := hmac (utf8Str (jsStr "AWS4" ++ st.secretAccessKey)) (utf8Str (getDate d1))
  let kRegion := hmac kDate (utf8Str st.region)
  let kService := hmac kRegion (utf8Str st.service)
  let signignKey := hmac kService (utf8Str (jsStr "aws4_request"))
  let sts := stringToSign (lookupVal st.headers (jsStr "x-amz-date")) (getDate d2)
    st.region st.service (getCanonicalRequestDigest sha st)
  hexLower (hmac signignKey (utf8Str sts))

/-- The `Authorization` header value built by `prepareRequest()`; `d3` is the
`new Date()` of the `this.getDate()` call in the Credential field. -/
def authorizationHeader (hmac : List Nat → List Nat → List Nat) (sha : List Nat → List Nat)
    (st : ReqState) (d1 d2 d3 : JSDate) : Str :=
  jsStr "AWS4-HMAC-SHA256 Credential=" ++ st.accessKeyId ++ '/' ::
    (getDate d3 ++ '/' :: (st.region ++ '/' :: (st.service ++ jsStr "/aws4_request, SignedHeaders=" ++
      getSignedHeaders st.headers ++ jsStr ", Signature=" ++ getSignature hmac sha st d1 d2)))

/-- The signing-key chain exactly as §4.4 of the specification words it:
`kDate` keyed with `"AWS4" + secret` over the date stamp, `kRegion` keyed
with `kDate` over the region, `kService` keyed with `kRegion` over the
service, and the signing key keyed with `kService` over `"aws4_request"`,
every intermediate output staying raw bytes. -/
def specSigningKey (hmac : List Nat → List Nat → List Nat)
    (secret dateStamp region service : Str) : List Nat :=
  hmac (hmac (hmac (hmac (utf8Str (jsStr "AWS4" ++ secret)) (utf8Str dateStamp))
    (utf8Str region)) (utf8Str service)) (utf8Str (jsStr "aws4_request"))

/-- The UTC date stamp `YYYYMMDD` as §6 of the specification words it: every
component from UTC wall-clock time. -/
def specUTCDateStamp (d : JSDate) : Str :=
  (Nat.repr d.utcYear).data ++ pad2 d.utcMonth ++ pad2 d.utcDay

/-- The UTC amz-date `YYYYMMDD'T'HHMMSS'Z'` as §6 of the specification words
it: every component from UTC wall-clock time. -/
def specUTCAmzDate (d : JSDate) : Str :=
  specUTCDateStamp d ++ 'T' :: (pad2 d.utcHours ++ pad2 d.utcMinutes ++ pad2 d.utcSeconds ++ ['Z'])

/-- The header names appearing, in order, in a canonical headers block: one
per `\n`-terminated line, each name being the part of its line before the
first `:`. -/
def blockHeaderNames (b : Str) : List Str :=
  ((b.splitOn '\n').dropLast).map fun line => line.takeWhile fun c => c != ':'

/-- Normalization applied by `prepareHeadersEntries` to a single entry. -/
def normPair (p : Str × Str) : Str × Str := (normHeaderKey p.1, normHeaderVal p.2)

/-- One second before UTC midnight on 2022-12-31, in a host whose local time
equals UTC. -/
def decClock : JSDate := ⟨2022, 12, 31, 23, 59, 59, 2022, 12, 31, 23, 59, 59⟩

/-- One second after `decClock`: 2023-01-01 00:00:00 UTC (local = UTC). -/
def janClock : JSDate := ⟨2023, 1, 1, 0, 0, 0, 2023, 1, 1, 0, 0, 0⟩

/-- An instant on a host at UTC+90 minutes: local time 2023-01-01 00:30:00,
UTC 2022-12-31 23:00:00. -/
def tzOffsetClock : JSDate := ⟨2023, 1, 1, 0, 30, 0, 2022, 12, 31, 23, 0, 0⟩

theorem replaceDS_length_lt : ∀ {s : Str}, hasDS s = true →
    (replaceDS s).length < s.length := by
  intro s h
  induction s with
  | nil => simp [hasDS] at h
  | cons a t ih =>
    cases t with
    | nil => simp [hasDS] at h
    | cons b rest =>
      by_cases hab : a = ' ' && b = ' '
      · simp [replaceDS, hab]
      · have h2 : hasDS (b :: rest) = true := by
          simpa [hasDS, hab] using h
        simpa [replaceDS, hab] using ih h2

/-- Justification that the fuel in `collapseWS` runs the source's while loop
to its exit condition: the result contains no double space. -/
theorem collapseWS_no_ds (s : Str) : hasDS (collapseWS s) = false := by
  suffices h : ∀ fuel s, List.length s ≤ fuel → hasDS (collapseWSFuel fuel s) = false from
    h s.length s le_rfl
  intro fuel
  induction fuel with
  | zero =>
    intro s hs
    have : s = [] := List.length_eq_zero.mp (Nat.le_zero.mp hs)
    simp [this, collapseWSFuel, hasDS]
  | succ n ih =>
    intro s hs
    by_cases hd : hasDS s
    · have hlt := replaceDS_length_lt hd
      have : (replaceDS s).length ≤ n := by omega
      simpa [collapseWSFuel, hd] using ih _ this
    · simp [collapseWSFuel, hd]

theorem foldl_objInsert_eq_append :
    ∀ (l : List (Str × Str)) (acc : List (Str × Str)),
      (acc.map Prod.fst ++ l.map fun p => normHeaderKey p.1).Nodup →
      l.foldl (fun acc p => objInsert acc (normHeaderKey p.1) (normHeaderVal p.2)) acc
        = acc ++ l.map normPair
  | [], acc, _ => by simp
  | p :: l, acc, h => by
    have hk : normHeaderKey p.1 ∉ acc.map Prod.fst := by
      intro hmem
      rcases List.nodup_append.mp h with ⟨_, _, hdisj⟩
      exact hdisj hmem (by simp)
    have hins : objInsert acc (normHeaderKey p.1) (normHeaderVal p.2)
        = acc ++ [normPair p] := by
      have hany : (acc.any fun q => q.1 = normHeaderKey p.1) = false := by
        rw [List.any_eq_false]
        intro q hq
        simp only [decide_eq_true_eq]
        intro hq1
        exact hk (hq1 ▸ List.mem_map_of_mem Prod.fst hq)
      simp [objInsert, hany, normPair]
    have h2 : ((acc ++ [normPair p]).map Prod.fst ++ l.map fun q => normHeaderKey q.1).Nodup := by
      simpa [normPair, List.append_assoc] using h
    calc (p :: l).foldl (fun acc q => objInsert acc (normHeaderKey q.1) (normHeaderVal q.2)) acc
        = l.foldl (fun acc q => objInsert acc (normHeaderKey q.1) (normHeaderVal q.2))
            (acc ++ [normPair p]) := by rw [List.foldl_cons, hins]
      _ = (acc ++ [normPair p]) ++ l.map normPair := foldl_objInsert_eq_append l _ h2
      _ = acc ++ (p :: l).map normPair := by simp

/-- When the normalized header names are pairwise distinct, the JavaScript
object built by `prepareHeadersEntries` is exactly the input list with each
entry normalized, in input order. -/
theorem prepareHeadersEntries_eq_map {l : List (Str × Str)}
    (h : (l.map fun p => normHeaderKey p.1).Nodup) :
    prepareHeadersEntries l = l.map normPair := by
  simpa [prepareHeadersEntries] using foldl_objInsert_eq_append l [] (by simpa using h)

/-- Association-list lookup is permutation-invariant when keys are
pairwise distinct. -/
theorem lookupVal_perm {l1 l2 : List (Str × Str)} (hp : l1.Perm l2)
    (hnd : (l1.map Prod.fst).Nodup) (k : Str) : lookupVal l1 k = lookupVal l2 k := by
  induction hp with
  | nil => rfl
  | cons x h ih =>
    rename_i t1 t2
    have hnd' : (x.1 :: t1.map Prod.fst).Nodup := by simpa using hnd
    by_cases hx : x.1 = k
    · simp [lookupVal, List.find?_cons, hx]
    · have hrec := ih (List.nodup_cons.mp hnd').2
      simpa [lookupVal, List.find?_cons, hx] using hrec
  | swap x y l =>
    have hnd' : (y.1 :: x.1 :: l.map Prod.fst).Nodup := by simpa using hnd
    have hyx : y.1 ≠ x.1 := fun he => (List.nodup_cons.mp hnd').1 (by simp [he])
    by_cases hy : y.1 = k
    · have hx : ¬x.1 = k := fun hxk => hyx (hy.trans hxk.symm)
      simp [lookupVal, List.find?_cons, hy, hx]
    · by_cases hx : x.1 = k
      · simp [lookupVal, List.find?_cons, hx, hy]
      · simp [lookupVal, List.find?_cons, hx, hy]
  | trans h1 h2 ih1 ih2 =>
    have hnd2 := ((h1.map Prod.fst).nodup_iff).mp hnd
    exact (ih1 hnd).trans (ih2 hnd2)

/-- Sorting the keys is invariant under permutation of the header entries. -/
theorem sortKeys_perm_eq {l1 l2 : List (Str × Str)} (hp : l1.Perm l2) :
    sortKeys l1 = sortKeys l2 := by
  unfold sortKeys jsSort
  exact List.eq_of_perm_of_sorted
    ((List.perm_insertionSort _ _).trans ((hp.map Prod.fst).trans
      (List.perm_insertionSort _ _).symm))
    (List.sorted_insertionSort _ _) (List.sorted_insertionSort _ _)

/-- C1: For every signing operation, the derived key chain is
`kDate = HMAC(key = "AWS4" + secretAccessKey, dateStamp)`,
`kRegion = HMAC(key = kDate, region)`, `kService = HMAC(key = kRegion,
service)`, `signingKey = HMAC(key = kService, "aws4_request")`, intermediate
outputs staying raw bytes, and `getSignature` returns the HMAC of the
string-to-sign keyed with the signing key, rendered as lowercase hex. -/
theorem signing_key_chain_correct (hmac : List Nat → List Nat → List Nat)
    (sha : List Nat → List Nat) (st : ReqState) (d : JSDate) :
    getSignature hmac sha st d d =
      hexLower (hmac
        (specSigningKey hmac st.secretAccessKey (getDate d) st.region st.service)
        (utf8Str (stringToSign (lookupVal st.headers (jsStr "x-amz-date")) (getDate d)
          st.region st.service (getCanonicalRequestDigest sha st)))) := rfl

/-- C2: For every supported method, `getCanonicalRequest()` is exactly the
6 fields METHOD, CanonicalURI, CanonicalQueryString, CanonicalHeaders,
SignedHeaders, HashedPayload joined with single `\n` separators. -/
theorem canonical_request_six_fields (sha : List Nat → List Nat) (st : ReqState) :
    getCanonicalRequest sha st =
      [('\n' : Char)].intercalate
        [st.method, st.URI, st.queryString, getCanonicalHeadres st.headers,
         getSignedHeaders st.headers, getHashedPayload sha st] := by
  simp [getCanonicalRequest, List.intercalate, List.intersperse]

/-- C7: For method GET with a structured parameter mapping,
`getCanonicalQueryString` builds `key=value` tokens with no individual
percent-encoding, sorts them by the full token string, joins with `&`, and
URI-encodes only the joined string; in particular `{"z":"1","a":"2"}` yields
`"a=2&z=1"`. -/
theorem get_query_string_from_object (params : List (Str × Str)) :
    getCanonicalQueryString (jsStr "GET") (Params.obj params) =
      encodeURI (trimStr ([('&' : Char)].intercalate
        (jsSort (params.map fun p => p.1 ++ '=' :: p.2)))) ∧
    getCanonicalQueryString (jsStr "GET")
        (Params.obj [(jsStr "z", jsStr "1"), (jsStr "a", jsStr "2")])
      = jsStr "a=2&z=1" :=
  ⟨rfl, by decide⟩

/-- C6: Header canonicalization is order-independent: for header sets whose
names are unique after normalization, any permutation of the insertion order
yields the same canonical headers block and the same signed-headers list. -/
theorem header_canonicalization_order_independent (l1 l2 : List (Str × Str))
    (hperm : l1.Perm l2)
    (hnd : (l1.map fun p => normHeaderKey p.1).Nodup) :
    getSignedHeaders (prepareHeadersEntries l1) = getSignedHeaders (prepareHeadersEntries l2) ∧
    getCanonicalHeadres (prepareHeadersEntries l1)
      = getCanonicalHeadres (prepareHeadersEntries l2) := by
  have hnd2 : (l2.map fun p => normHeaderKey p.1).Nodup :=
    ((hperm.map fun p => normHeaderKey p.1).nodup_iff).mp hnd
  have e1 : prepareHeadersEntries l1 = l1.map normPair := prepareHeadersEntries_eq_map hnd
  have e2 : prepareHeadersEntries l2 = l2.map normPair := prepareHeadersEntries_eq_map hnd2
  have hp : (l1.map normPair).Perm (l2.map normPair) := hperm.map normPair
  have hndk : ((l1.map normPair).map Prod.fst).Nodup := by
    simpa [List.map_map, Function.comp, normPair] using hnd
  have hsk : sortKeys (l1.map normPair) = sortKeys (l2.map normPair) := sortKeys_perm_eq hp
  have hlk : ∀ k, lookupVal (l1.map normPair) k = lookupVal (l2.map normPair) k :=
    fun k => lookupVal_perm hp hndk k
  rw [e1, e2]
  refine ⟨?_, ?_⟩
  · simp only [getSignedHeaders, hsk]
  · simp only [getCanonicalHeadres, hsk, hlk]

/-- Closed instance of C6: swapping the two constructor headers leaves both
canonical outputs unchanged. -/
theorem header_order_independent_witness :
    getSignedHeaders (prepareHeadersEntries
        [(jsStr "X-Amz-Date", jsStr "20230101T000000Z"), (jsStr "Host", jsStr "h.com")])
      = getSignedHeaders (prepareHeadersEntries
        [(jsStr "Host", jsStr "h.com"), (jsStr "X-Amz-Date", jsStr "20230101T000000Z")]) ∧
    getCanonicalHeadres (prepareHeadersEntries
        [(jsStr "X-Amz-Date", jsStr "20230101T000000Z"), (jsStr "Host", jsStr "h.com")])
      = getCanonicalHeadres (prepareHeadersEntries
        [(jsStr "Host", jsStr "h.com"), (jsStr "X-Amz-Date", jsStr "20230101T000000Z")]) :=
  header_canonicalization_order_independent _ _ (by decide) (by decide)

/-- Counterexample to C5 as stated, exhibiting both failure modes.
First, `"a=1"` is a canonical (sorted) query string — it is itself the
output of canonicalizing `"?a=1"` — yet applying `getCanonicalQueryString`
to it returns the empty string, because the string branch only extracts
what follows a `?`.  Second, even with the `?` prefix restored, canonical
outputs containing percent-escapes are not fixed points: `"a=b%20c"` is the
canonical output for `"?a=b c"`, but canonicalizing `"?a=b%20c"` re-encodes
the `%` and yields `"a=b%2520c"` (the double-encoding latent bug §9 of the
specification flags). -/
theorem query_idempotence_counterexample :
    getCanonicalQueryString (jsStr "GET") (Params.str (jsStr "?a=1")) = jsStr "a=1" ∧
    getCanonicalQueryString (jsStr "GET") (Params.str (jsStr "a=1")) = [] ∧
    getCanonicalQueryString (jsStr "GET") (Params.str (jsStr "a=1")) ≠ jsStr "a=1" ∧
    getCanonicalQueryString (jsStr "GET") (Params.str (jsStr "?a=b c")) = jsStr "a=b%20c" ∧
    getCanonicalQueryString (jsStr "GET") (Params.str (jsStr "?a=b%20c")) = jsStr "a=b%2520c" ∧
    getCanonicalQueryString (jsStr "GET") (Params.str (jsStr "?a=b%20c")) ≠ jsStr "a=b%20c" := by
  decide

/-- C5 (amended): idempotence holds exactly on the domain the two
counterexample failure modes leave open — applying `getCanonicalQueryString`
to `"?" ++ q` (the string branch only parses what follows a `?`, first
failure mode) returns `q` unchanged whenever `q` has no surrounding
whitespace, has sorted tokens, and is unchanged by `encodeURI` (canonical
outputs containing percent-escapes are re-encoded, `%` becoming `%25`,
second failure mode). -/
theorem query_canonicalization_idempotent (method q : Str)
    (htrim : trimStr q = q) (henc : encodeURI q = q)
    (hsorted : List.Sorted (· ≤ ·) (q.splitOn '&')) :
    getCanonicalQueryString method (Params.str ('?' :: q)) = q := by
  have hj : jsStr "?" = ['?'] := rfl
  have hidx : idxOf (jsStr "?") ('?' :: q) = some 0 := by
    rw [idxOf, hj]
    simp only [idxOfFrom, List.isPrefixOf_cons₂, List.isPrefixOf_nil_left,
      beq_self_eq_true, Bool.true_and, if_true]
  simp only [getCanonicalQueryString, hidx, List.drop_succ_cons, List.drop_zero,
    Nat.zero_add, htrim]
  by_cases hamp : (idxOf (jsStr "&") q).isSome
  · rw [if_pos hamp]
    unfold jsSort
    rw [List.Sorted.insertionSort_eq hsorted, List.intercalate_splitOn, htrim, henc]
  · rw [if_neg hamp, henc]

/-- Closed instance of the amended C5 at the already-canonical query string
`"a=2&z=1"`. -/
theorem query_canonicalization_idempotent_witness :
    getCanonicalQueryString (jsStr "GET") (Params.str ('?' :: jsStr "a=2&z=1"))
      = jsStr "a=2&z=1" :=
  query_canonicalization_idempotent _ _ (by decide) (by decide) (by decide)

/-- Counterexample to C8 as stated: a URL with a host and no path segment
canonicalizes to the (lower-cased, encoded) post-`//` remainder — the host
itself — not to the empty string. -/
theorem empty_path_counterexample :
    getCanonicalURI (jsStr "https://example.com") = jsStr "example.com" ∧
    getCanonicalURI (jsStr "https://example.com") ≠ [] := by
  decide

/-- C8 (amended): for every URL that contains `"//"` and has no `'/'` after
the host portion, `getCanonicalURI` returns the entire post-`//` remainder
after lower-casing, trimming and percent-encoding (so in particular no
trailing `'/'` is forced onto the result, but the result is not empty for a
nonempty host). -/
theorem no_path_returns_remainder (url : Str) (b : Nat)
    (hb : idxOf (jsStr "//") url = some b)
    (hns : idxOf (jsStr "/") (url.drop (b + 2)) = none) :
    getCanonicalURI url = encodeURI (trimStr (toLowerStr (url.drop (b + 2)))) := by
  simp [getCanonicalURI, hb, hns]

/-- Closed instance of the amended C8 at `https://example.com`. -/
theorem no_path_returns_remainder_witness :
    getCanonicalURI (jsStr "https://example.com")
      = encodeURI (trimStr (toLowerStr ((jsStr "https://example.com").drop (6 + 2)))) :=
  no_path_returns_remainder _ 6 (by decide) (by decide)

/-- C9 as stated fails on the code: an empty header object passes the guard
of `prepareHeadersEntries` and silently produces an empty normalized header
set — hence an empty canonical headers block and an empty signed-headers
list — with no error signalled; and a `null`/`undefined` header set only
logs to the console (no exception reaches the caller either). -/
theorem empty_headers_silently_accepted :
    prepareHeadersEntriesChecked (some []) = ⟨some [], false⟩ ∧
    getCanonicalHeadres [] = [] ∧
    getSignedHeaders [] = [] ∧
    (prepareHeadersEntriesChecked none).headers = none ∧
    (prepareHeadersEntriesChecked none).consoleError = true := by
  decide

/-- C3 fails on the code: the timestamp is re-captured by a fresh
`new Date()` at every stage.  With the constructor running one second before
UTC midnight and `getSignature` running one second later, the `X-Amz-Date`
header carries December 31 while the date stamp used for the key chain and
credential scope is January 1. -/
theorem timestamp_recapture_divergence :
    getISO8601Date decClock decClock = jsStr "20221231T235959Z" ∧
    getDate janClock = jsStr "20230101" ∧
    (getISO8601Date decClock decClock).take 8 ≠ getDate janClock := by
  decide

/-- C4 fails on the code: at an instant whose local time (UTC+90 minutes) is
2023-01-01 00:30:00 while UTC is 2022-12-31 23:00:00, `getDate` returns
`"20230131"` — local year and month glued to the UTC day — instead of the
all-UTC `"20221231"`, and `getISO8601Date` returns `"20230131T233000Z"` —
UTC hours glued to local minutes/seconds — instead of `"20221231T230000Z"`. -/
theorem date_components_not_all_utc :
    getDate tzOffsetClock = jsStr "20230131" ∧
    specUTCDateStamp tzOffsetClock = jsStr "20221231" ∧
    getDate tzOffsetClock ≠ specUTCDateStamp tzOffsetClock ∧
    getISO8601Date tzOffsetClock tzOffsetClock = jsStr "20230131T233000Z" ∧
    specUTCAmzDate tzOffsetClock = jsStr "20221231T230000Z" ∧
    getISO8601Date tzOffsetClock tzOffsetClock ≠ specUTCAmzDate tzOffsetClock := by
  decide

theorem getCanonicalHeadres_eq_flatten (m : List (Str × Str)) :
    getCanonicalHeadres m
      = ((sortKeys m).map fun k => (k ++ ':' :: lookupVal m k) ++ ['\n']).flatten := by
  suffices h : ∀ (ks : List Str) (acc : Str),
      ks.foldl (fun acc k => acc ++ k ++ ':' :: lookupVal m k ++ ['\n']) acc
        = acc ++ (ks.map fun k => (k ++ ':' :: lookupVal m k) ++ ['\n']).flatten by
    simpa [getCanonicalHeadres] using h (sortKeys m) []
  intro ks
  induction ks with
  | nil => intro acc; simp
  | cons k t ih =>
    intro acc
    simp only [List.foldl_cons, List.map_cons, List.flatten_cons]
    rw [ih]
    simp [List.append_assoc]

theorem splitOn_flatten_newline_lines :
    ∀ (ls : List Str), (∀ l ∈ ls, ('\n' : Char) ∉ l) →
      ((ls.map fun l => l ++ ['\n']).flatten).splitOn '\n' = ls ++ [[]]
  | [], _ => by simp
  | a :: t, h => by
    have ha : ∀ x ∈ a, ¬((x == '\n') = true) := by
      intro x hx
      simp only [beq_iff_eq]
      exact fun he => h a (List.mem_cons_self a t) (he ▸ hx)
    have ht := splitOn_flatten_newline_lines t fun l hl => h l (List.mem_cons_of_mem a hl)
    simp only [List.map_cons, List.flatten_cons, List.append_assoc, List.singleton_append]
    simp only [List.splitOn] at ht ⊢
    have hfirst := List.splitOnP_first (fun x => x == '\n') a ha '\n' (by simp)
      ((t.map fun l => l ++ ['\n']).flatten)
    rw [hfirst, ht]
    simp

theorem takeWhile_ne_colon_append (v : Str) :
    ∀ (k : Str), (∀ c ∈ k, c ≠ ':') →
      ((k ++ ':' :: v).takeWhile fun c => c != ':') = k
  | [], _ => by simp [List.takeWhile_cons]
  | a :: t, h => by
    have ha : a ≠ ':' := h a (List.mem_cons_self a t)
    have ht := takeWhile_ne_colon_append v t fun c hc => h c (List.mem_cons_of_mem a hc)
    simp [List.takeWhile_cons, ha, ht]

/-- C10: the header names appearing, in order, in the canonical headers
block of `getCanonicalHeadres()` are exactly the entries of the
signed-headers list of `getSignedHeaders()`, in the same sorted order —
both enumerate the sorted keys of the same normalized header map. -/
theorem signed_headers_enumerate_block (m : List (Str × Str))
    (hne : m ≠ [])
    (hkeys : ∀ k ∈ objKeys m, (':' : Char) ∉ k ∧ ('\n' : Char) ∉ k ∧ (';' : Char) ∉ k)
    (hvals : ∀ p ∈ m, ('\n' : Char) ∉ p.2) :
    blockHeaderNames (getCanonicalHeadres m) = (getSignedHeaders m).splitOn ';' ∧
    blockHeaderNames (getCanonicalHeadres m) = sortKeys m := by
  have hmemk : ∀ k ∈ sortKeys m, k ∈ objKeys m := by
    intro k hk
    simpa [sortKeys, jsSort] using hk
  have hks_ne : sortKeys m ≠ [] := by
    intro h0
    apply hne
    have hlen : (sortKeys m).length = m.length := by
      have h1 := (List.perm_insertionSort ((· ≤ ·) : Str → Str → Prop) (objKeys m)).length_eq
      simp only [sortKeys, jsSort]
      rw [h1]
      simp [objKeys]
    rw [h0] at hlen
    exact List.length_eq_zero.mp hlen.symm
  have hsig : (getSignedHeaders m).splitOn ';' = sortKeys m := by
    rw [getSignedHeaders]
    exact List.splitOn_intercalate (sortKeys m) ';'
      (fun l hl => (hkeys l (hmemk l hl)).2.2) hks_ne
  have hlines : ∀ l ∈ (sortKeys m).map fun k => k ++ ':' :: lookupVal m k,
      ('\n' : Char) ∉ l := by
    intro l hl
    rcases List.mem_map.mp hl with ⟨k, hk, rfl⟩
    intro hmem
    rcases List.mem_append.mp hmem with h1 | h2
    · exact (hkeys k (hmemk k hk)).2.1 h1
    · rcases List.mem_cons.mp h2 with h3 | h4
      · exact absurd h3 (by decide)
      · cases hfind : List.find? (fun p => p.1 = k) m with
        | none => simp [lookupVal, hfind] at h4
        | some p =>
          have hpm : p ∈ m := List.mem_of_find?_eq_some hfind
          have hval : lookupVal m k = p.2 := by simp [lookupVal, hfind]
          exact hvals p hpm (hval ▸ h4)
  have hblock : blockHeaderNames (getCanonicalHeadres m) = sortKeys m := by
    rw [blockHeaderNames, getCanonicalHeadres_eq_flatten]
    have hmm : ((sortKeys m).map fun k => (k ++ ':' :: lookupVal m k) ++ ['\n'])
        = (((sortKeys m).map fun k => k ++ ':' :: lookupVal m k).map fun l => l ++ ['\n']) := by
      simp [List.map_map, Function.comp]
    rw [hmm, splitOn_flatten_newline_lines _ hlines, List.dropLast_concat, List.map_map]
    have : ∀ k ∈ sortKeys m,
        (((fun line => line.takeWhile fun c => c != ':') ∘ fun k => k ++ ':' :: lookupVal m k) k)
          = k := by
      intro k hk
      exact takeWhile_ne_colon_append (lookupVal m k) k
        fun c hc he => (hkeys k (hmemk k hk)).1 (he ▸ hc)
    rw [List.map_congr_left this, List.map_id']
  exact ⟨hblock.trans hsig.symm, hblock⟩

/-- Closed instance of C10 at the two constructor headers after
normalization. -/
theorem signed_headers_enumerate_block_witness :
    blockHeaderNames (getCanonicalHeadres
        [(jsStr "x-amz-date", jsStr "20230101T000000Z"), (jsStr "host", jsStr "h.com")])
      = (getSignedHeaders
        [(jsStr "x-amz-date", jsStr "20230101T000000Z"), (jsStr "host", jsStr "h.com")]).splitOn ';' ∧
    blockHeaderNames (getCanonicalHeadres
        [(jsStr "x-amz-date", jsStr "20230101T000000Z"), (jsStr "host", jsStr "h.com")])
      = sortKeys
        [(jsStr "x-amz-date", jsStr "20230101T000000Z"), (jsStr "host", jsStr "h.com")] :=
  signed_headers_enumerate_block _ (by decide) (by decide) (by decide)

end AWSRequestSV4
